import Mathlib

/-!
# wifiplus: DHCP request capture pipeline

A shallow embedding of `main.go`: the option scanner `parseDHCPOptions`, the
body and the loop of `captureDHCPPackets`, the ingestion loop and the
`GET /api/access-records` handler of `main`, and the shutdown goroutine.

Conventions of the embedding.

* A byte is a `Nat` (below 256 on every real input); a byte slice is a
  `List Nat`.
* A Go `string` is a byte sequence.  It is represented by a Lean `String`
  holding one character per byte, so `string(b)` is `bytesToString b`.
* The library calls made by `main.go` (`net.IP.String`,
  `net.HardwareAddr.String`, `strconv.FormatInt`, and the string encoding of
  `encoding/json` that `c.JSON` runs) are embedded from the Go standard
  library, the `layers` constants from gopacket.
* The handler of `GET /api/access-records` is embedded twice: `accessRecords`
  is the handler up to the value it hands to `c.JSON`, and `getAccessRecords`
  is what a client reads from the JSON body written for that value.
* The wall clock is an input: every frame received by the capture loop comes
  with the value `time.Now().UTC().UnixNano()` would return for it.
-/

namespace Wifiplus

/-! ## Go strings and the `net` / `strconv` helpers -/

/-- Go conversion `string(b)` of a byte slice: one character per byte. -/
def bytesToString (b : List Nat) : String :=
  String.mk (b.map Char.ofNat)

/-- Go `const hexDigit = "0123456789abcdef"` of package `net` (the same table
is `digits` in package `netip`), indexed. -/
def hexDigit (n : Nat) : Char :=
  "0123456789abcdef".data.getD n '0'

/-- Go `net.hexString`: two lower-case hex digits per byte, no separator. -/
def hexString : List Nat → List Char
  | [] => []
  | tn :: rest => hexDigit (tn / 16) :: hexDigit (tn % 16) :: hexString rest

/-- Loop of `net.HardwareAddr.String`; `i` is the index of the head byte. -/
def hardwareAddrLoop : Nat → List Nat → List Char
  | _, [] => []
  | i, b :: rest =>
    (if i > 0 then [':'] else []) ++
      (hexDigit (b / 16) :: hexDigit (b % 16) :: hardwareAddrLoop (i + 1) rest)

/-- Go `net.HardwareAddr.String`: empty for the empty address, otherwise the
bytes in two-digit lower-case hex separated by colons. -/
def hardwareAddrString (a : List Nat) : String :=
  if a.length = 0 then "" else String.mk (hardwareAddrLoop 0 a)

/-- Go `netip.appendDecimal`: a `uint8` in decimal without leading zeros. -/
def appendDecimal (b : List Char) (x : Nat) : List Char :=
  let b1 := if x ≥ 100 then b ++ [hexDigit (x / 100)] else b
  let b2 := if x ≥ 10 then b1 ++ [hexDigit (x / 10 % 10)] else b1
  b2 ++ [hexDigit (x % 10)]

/-- Go `netip.Addr.appendTo4`, on the four bytes of the address. -/
def appendTo4 (ret : List Char) (a b c d : Nat) : List Char :=
  let r0 := appendDecimal ret a
  let r1 := appendDecimal (r0 ++ ['.']) b
  let r2 := appendDecimal (r1 ++ ['.']) c
  appendDecimal (r2 ++ ['.']) d

/-- Go `netip.appendHex`: a `uint16` in lower-case hex without leading zeros. -/
def appendHex (b : List Char) (x : Nat) : List Char :=
  let b1 := if x ≥ 0x1000 then b ++ [hexDigit (x / 0x1000)] else b
  let b2 := if x ≥ 0x100 then b1 ++ [hexDigit (x / 0x100 % 16)] else b1
  let b3 := if x ≥ 0x10 then b2 ++ [hexDigit (x / 0x10 % 16)] else b2
  b3 ++ [hexDigit (x % 16)]

/-- Go `netip.Addr.v6u16`: the `i`-th 16-bit group of a 16-byte address. -/
def v6u16 (ip : List Nat) (i : Nat) : Nat :=
  ip.getD (2 * i) 0 * 256 + ip.getD (2 * i + 1) 0

/-- Inner loop of `string6`: advance `j` while `j < 8` and group `j` is zero. -/
def zeroRunEnd (ip : List Nat) : Nat → Nat → Nat
  | 0, j => j
  | fuel + 1, j => if j < 8 ∧ v6u16 ip j = 0 then zeroRunEnd ip fuel (j + 1) else j

/-- First loop of `netip.Addr.string6`: the longest run of at least two zero
groups, as `(zeroStart, zeroEnd)`, starting from `(255, 255)`. -/
def longestZeroRun (ip : List Nat) : Nat → Nat × Nat → Nat × Nat
  | 0, z => z
  | n + 1, z =>
    let i := 7 - n
    let j := zeroRunEnd ip 8 i
    let l := j - i
    longestZeroRun ip n (if l ≥ 2 ∧ l > z.2 - z.1 then (i, j) else z)

/-- Second loop of `netip.Addr.string6`, from group `i` on. -/
def string6Loop (ip : List Nat) (zeroStart zeroEnd : Nat) : Nat → Nat → List Char → List Char
  | 0, _, ret => ret
  | fuel + 1, i, ret =>
    if i < 8 then
      if i = zeroStart then
        if zeroEnd ≥ 8 then ret ++ [':', ':']
        else string6Loop ip zeroStart zeroEnd fuel (zeroEnd + 1)
          (appendHex (ret ++ [':', ':']) (v6u16 ip zeroEnd))
      else
        string6Loop ip zeroStart zeroEnd fuel (i + 1)
          (appendHex (if i > 0 then ret ++ [':'] else ret) (v6u16 ip i))
    else ret

/-- Go `netip.Addr.string6` for an address without zone. -/
def string6 (ip : List Nat) : List Char :=
  let z := longestZeroRun ip 8 (255, 255)
  string6Loop ip z.1 z.2 9 0 []

/-- Go `net.IP.To4`: the four bytes of a 4-byte address or of a 16-byte
IPv4-mapped one, `nil` otherwise. -/
def to4 (ip : List Nat) : List Nat :=
  if ip.length = 4 then ip
  else if ip.length = 16 ∧ (ip.take 10).all (fun b => b == 0) ∧
      ip.getD 10 0 = 0xff ∧ ip.getD 11 0 = 0xff then ip.drop 12
  else []

/-- Go `net.IP.String`, applied by `parseDHCPOptions` to the raw option data:
`"<nil>"` for no bytes, `"?"` followed by the hex of the bytes for a length
other than 4 and 16, dotted decimal for an IPv4 (or IPv4-mapped) address and
the IPv6 text form otherwise. -/
def ipString (ip : List Nat) : String :=
  if ip.length = 0 then "<nil>"
  else if ip.length ≠ 4 ∧ ip.length ≠ 16 then String.mk ('?' :: hexString ip)
  else
    match to4 ip with
    | [a, b, c, d] => String.mk (appendTo4 [] a b c d)
    | _ => String.mk (string6 ip)

/-- Go `strconv.formatBits` in base 10, on the magnitude `u`: the decimal
digits of `u` are written in front of `acc`, least significant first, until
the quotient is below 10.  (The Go loop emits the same digits two at a time
from a table.)  The first argument bounds the number of iterations. -/
def formatBits : Nat → Nat → List Char → List Char
  | 0, u, acc => hexDigit (u % 10) :: acc
  | fuel + 1, u, acc =>
    if u ≥ 10 then formatBits fuel (u / 10) (hexDigit (u % 10) :: acc)
    else hexDigit u :: acc

/-- Go `strconv.FormatInt(i, 10)`: the decimal digits of the magnitude, with a
leading minus sign for a negative number. -/
def formatInt (i : Int) : String :=
  if i < 0 then String.mk ('-' :: formatBits i.natAbs i.natAbs [])
  else String.mk (formatBits i.natAbs i.natAbs [])

/-! ## Data model -/

/-- Go `type DHCPRecord struct`. -/
structure DHCPRecord where
  ID : String
  IP : String
  MAC : String
  Hostname : String
deriving DecidableEq, Repr

/-- Constant `layers.DHCPOptHostname` of gopacket (RFC 2132 option 12). -/
def DHCPOptHostname : Nat := 12

/-- Constant `layers.DHCPOptRequestIP` of gopacket (RFC 2132 option 50). -/
def DHCPOptRequestIP : Nat := 50

/-- Constant `layers.DHCPOpRequest` of gopacket. -/
def DHCPOpRequest : Nat := 1

/-- Constant `layers.DHCPOpReply` of gopacket. -/
def DHCPOpReply : Nat := 2

/-- Go `layers.DHCPOption` (field `Type` is written `OptType`). -/
structure DHCPOption where
  OptType : Nat
  Length : Nat
  Data : List Nat
deriving DecidableEq, Repr

/-- Loop of `parseDHCPOptions` over the remaining options, threading the
variables `ipAddr` and `hostname`. -/
def parseLoop : List DHCPOption → String → String → String × String
  | [], ipAddr, hostname => (ipAddr, hostname)
  | option :: rest, ipAddr, hostname =>
    if option.OptType = DHCPOptRequestIP then
      parseLoop rest (ipString option.Data) hostname
    else if option.OptType = DHCPOptHostname then
      parseLoop rest ipAddr (bytesToString option.Data)
    else parseLoop rest ipAddr hostname

/-- Go `parseDHCPOptions`: results `(ipAddr, macAddr, hostname)`; `macAddr`
is declared and never assigned. -/
def parseDHCPOptions (options : List DHCPOption) : String × String × String :=
  let macAddr := ""
  let r := parseLoop options "" ""
  (r.1, macAddr, r.2)

/-- Go `layers.Ethernet`, reduced to the field the program reads. -/
structure Ethernet where
  SrcMAC : List Nat
deriving DecidableEq, Repr

/-- Go `layers.DHCPv4`, reduced to the fields the program reads. -/
structure DHCPv4 where
  Operation : Nat
  Options : List DHCPOption
deriving DecidableEq, Repr

/-- A decoded frame (`gopacket.Packet`) as the capture loop sees it:
`packet.Layer(layers.LayerTypeEthernet)` and
`packet.Layer(layers.LayerTypeDHCPv4)`, `none` standing for `nil`. -/
structure Packet where
  ethLayer : Option Ethernet
  dhcpLayer : Option DHCPv4
deriving DecidableEq, Repr

/-! ## The capture loop -/

/-- Body of the `case packet := <-packetSource.Packets()` branch of
`captureDHCPPackets` (lines 74-99): `none` is a `continue`, `some record` is
the record sent on `dhcpChan`.  `now` is `time.Now().UTC().UnixNano()`. -/
def handlePacket (packet : Packet) (now : Int) : Option DHCPRecord :=
  match packet.ethLayer with
  | none => none
  | some eth =>
    let macAddr := hardwareAddrString eth.SrcMAC
    match packet.dhcpLayer with
    | none => none
    | some dhcp =>
      if dhcp.Operation ≠ DHCPOpRequest then none
      else
        let r := parseDHCPOptions dhcp.Options
        some { ID := formatInt now, IP := r.1, MAC := macAddr, Hostname := r.2.2 }

/-- Outcome of one `select` of the capture loop: the `done` case, or a frame
together with the clock reading available to its iteration. -/
inductive Selected where
  | done
  | packet (packet : Packet) (now : Int)
deriving DecidableEq, Repr

/-- Go `captureDHCPPackets`, the `for { select { ... } }` loop run on the
successive outcomes of its `select`: the records sent on `dhcpChan`, in the
order they are sent.  The loop returns at the first `done`. -/
def captureDHCPPackets : List Selected → List DHCPRecord
  | [] => []
  | Selected.done :: _ => []
  | Selected.packet packet now :: rest =>
    match handlePacket packet now with
    | none => captureDHCPPackets rest
    | some record => record :: captureDHCPPackets rest

/-! ## The store, the ingestion loop and the query handler -/

/-- Go `for record := range dhcpChan { dhcpRecord = append(dhcpRecord, record) }`:
the store after the loop has received the given records in order. -/
def ingestionLoop (dhcpRecord : List DHCPRecord) : List DHCPRecord → List DHCPRecord
  | [] => dhcpRecord
  | record :: rest => ingestionLoop (dhcpRecord ++ [record]) rest

/-- Go `http.StatusOK`. -/
def StatusOK : Nat := 200

/-- What `c.JSON(status, value)` hands to the client: the status and the
value that is serialised. -/
structure Response where
  status : Nat
  body : List DHCPRecord
deriving DecidableEq, Repr

/-- Handler of `GET /api/access-records`, run on the store: the response and
the store after the call. -/
def accessRecords (dhcpRecord : List DHCPRecord) : Response × List DHCPRecord :=
  ({ status := StatusOK, body := dhcpRecord }, dhcpRecord)

/-- The two operations of the program on the store. -/
inductive StoreOp where
  | ingest (record : DHCPRecord)
  | query
deriving DecidableEq, Repr

/-- The store after one operation: an iteration of the ingestion loop, or a
call of the query handler. -/
def applyOp (dhcpRecord : List DHCPRecord) : StoreOp → List DHCPRecord
  | StoreOp.ingest record => ingestionLoop dhcpRecord [record]
  | StoreOp.query => (accessRecords dhcpRecord).2

/-- The store after a sequence of operations. -/
def applyOps (dhcpRecord : List DHCPRecord) : List StoreOp → List DHCPRecord
  | [] => dhcpRecord
  | op :: rest => applyOps (applyOp dhcpRecord op) rest

/-! ## The response as the client reads it -/

/-- Go `utf8.RuneError`, U+FFFD. -/
def RuneError : Nat := 0xFFFD

/-- Go table `first` of package `unicode/utf8`, by ranges of the leading
byte: `0xF0` is ASCII (`as`), `0xF1` an invalid leading byte (`xx`), otherwise
the low three bits give the sequence length and the high four bits the index
of the range accepted for the second byte. -/
def first (b : Nat) : Nat :=
  if b < 0x80 then 0xF0
  else if b < 0xC2 then 0xF1
  else if b < 0xE0 then 0x02
  else if b = 0xE0 then 0x13
  else if b < 0xED then 0x03
  else if b = 0xED then 0x23
  else if b < 0xF0 then 0x03
  else if b = 0xF0 then 0x34
  else if b < 0xF4 then 0x04
  else if b = 0xF4 then 0x44
  else 0xF1

/-- Go table `acceptRanges` of package `unicode/utf8`: `(lo, hi)` for the
second byte. -/
def acceptRanges : Nat → Nat × Nat
  | 0 => (0x80, 0xBF)
  | 1 => (0xA0, 0xBF)
  | 2 => (0x80, 0x9F)
  | 3 => (0x90, 0xBF)
  | 4 => (0x80, 0x8F)
  | _ => (0, 0)

/-- Go `utf8.DecodeRuneInString`: the rune at the head of `p` and its width
in bytes; `(RuneError, 1)` for an encoding that is not well formed. -/
def decodeRune (p : List Nat) : Nat × Nat :=
  match p with
  | [] => (RuneError, 0)
  | p0 :: _ =>
    let x := first p0
    if x ≥ 0xF0 then (if x = 0xF0 then p0 else RuneError, 1)
    else
      let sz := x % 8
      let accept := acceptRanges (x / 16)
      if p.length < sz then (RuneError, 1)
      else
        let b1 := p.getD 1 0
        if b1 < accept.1 ∨ accept.2 < b1 then (RuneError, 1)
        else if sz ≤ 2 then (p0 % 32 * 64 + b1 % 64, 2)
        else
          let b2 := p.getD 2 0
          if b2 < 0x80 ∨ 0xBF < b2 then (RuneError, 1)
          else if sz ≤ 3 then (p0 % 16 * 4096 + b1 % 64 * 64 + b2 % 64, 3)
          else
            let b3 := p.getD 3 0
            if b3 < 0x80 ∨ 0xBF < b3 then (RuneError, 1)
            else (p0 % 8 * 262144 + b1 % 64 * 4096 + b2 % 64 * 64 + b3 % 64, 4)

/-- Loop of Go `encoding/json` `appendString`, which `c.JSON` runs on every
string field, given as the text a JSON reader gets back from the literal it
writes.  A byte below `0x80` is written as itself or as an escape that
denotes it; a byte that starts no well-formed UTF-8 sequence
(`c == utf8.RuneError && size == 1`) is written as `\ufffd`, which reads back
as the three bytes of U+FFFD; any other sequence is copied, or for U+2028 and
U+2029 escaped to the same character.  The first argument bounds the number
of iterations. -/
def appendStringLoop : Nat → List Char → List Char
  | 0, _ => []
  | _ + 1, [] => []
  | fuel + 1, c :: rest =>
    if c.toNat < 0x80 then c :: appendStringLoop fuel rest
    else
      let r := decodeRune (((c :: rest).take 4).map Char.toNat)
      if r.1 = RuneError ∧ r.2 = 1 then
        Char.ofNat 0xEF :: Char.ofNat 0xBF :: Char.ofNat 0xBD :: appendStringLoop fuel rest
      else (c :: rest).take r.2 ++ appendStringLoop fuel ((c :: rest).drop r.2)

/-- A Go string as a client reads it from the JSON body written by `c.JSON`. -/
def jsonStringValue (s : String) : String :=
  String.mk (appendStringLoop s.length s.data)

/-- A record as a client reads it from the JSON body: the four fields are
JSON strings. -/
def jsonRecord (r : DHCPRecord) : DHCPRecord :=
  { ID := jsonStringValue r.ID, IP := jsonStringValue r.IP, MAC := jsonStringValue r.MAC,
    Hostname := jsonStringValue r.Hostname }

/-- What a client gets from `GET /api/access-records` on the given store: the
status, and the array read from the JSON body that `c.JSON` writes for the
value the handler passes to it. -/
def getAccessRecords (dhcpRecord : List DHCPRecord) : Response :=
  { status := (accessRecords dhcpRecord).1.status,
    body := (accessRecords dhcpRecord).1.body.map jsonRecord }

/-! ## The three goroutines as a transition system -/

/-- Position of the capture goroutine in `captureDHCPPackets`. -/
inductive CapturePos where
  | atSelect
  | processing (packet : Packet) (now : Int)
  | sending (record : DHCPRecord)
  | exited
deriving DecidableEq, Repr

/-- Position of the ingestion goroutine. -/
inductive IngestPos where
  | atRange
  | appending (record : DHCPRecord)
  | exited
deriving DecidableEq, Repr

/-- Position of the shutdown goroutine: blocked on `<-quit`, past
`close(done)`, past `close(dhcpChan)`. -/
inductive CoordPos where
  | running
  | doneClosed
  | chanClosed
deriving DecidableEq, Repr

/-- State of the program: the three goroutines and the store. -/
structure State where
  capture : CapturePos
  ingest : IngestPos
  coordinator : CoordPos
  dhcpRecord : List DHCPRecord
deriving DecidableEq, Repr

/-- One atomic step of one goroutine. -/
inductive Action where
  | frame (packet : Packet) (now : Int)
  | observeDone
  | process
  | handoff
  | append
  | rangeEnd
  | signal
  | closeChan
deriving DecidableEq, Repr

/-- State at process start: `dhcpRecord = make([]DHCPRecord, 0)`, the
goroutines at their first blocking operation. -/
def initState : State :=
  { capture := CapturePos.atSelect, ingest := IngestPos.atRange,
    coordinator := CoordPos.running, dhcpRecord := [] }

/-- The step relation as a function, `none` when the action is not enabled.

* `frame`: the `select` takes the packet case (enabled whenever a frame is
  available, whether or not `done` is closed);
* `observeDone`: the `select` takes `<-done`, enabled once `done` is closed;
* `process`: lines 74-98, ending in `continue` or at `dhcpChan <- record`;
* `handoff`: the rendezvous on the unbuffered open `dhcpChan`;
* `append`: lines 136-138;
* `rangeEnd`: `range dhcpChan` ends on the closed channel;
* `signal`: `<-quit` returns and `close(done)` runs;
* `closeChan`: `close(dhcpChan)`, line 147, the very next statement. -/
def step (s : State) : Action → Option State
  | Action.frame packet now =>
    match s.capture with
    | CapturePos.atSelect => some { s with capture := CapturePos.processing packet now }
    | _ => none
  | Action.observeDone =>
    match s.capture, s.coordinator with
    | CapturePos.atSelect, CoordPos.doneClosed => some { s with capture := CapturePos.exited }
    | CapturePos.atSelect, CoordPos.chanClosed => some { s with capture := CapturePos.exited }
    | _, _ => none
  | Action.process =>
    match s.capture with
    | CapturePos.processing packet now =>
      match handlePacket packet now with
      | none => some { s with capture := CapturePos.atSelect }
      | some record => some { s with capture := CapturePos.sending record }
    | _ => none
  | Action.handoff =>
    match s.capture, s.ingest, s.coordinator with
    | CapturePos.sending _, IngestPos.atRange, CoordPos.chanClosed => none
    | CapturePos.sending record, IngestPos.atRange, _ =>
      some { s with capture := CapturePos.atSelect, ingest := IngestPos.appending record }
    | _, _, _ => none
  | Action.append =>
    match s.ingest with
    | IngestPos.appending record =>
      some { s with ingest := IngestPos.atRange, dhcpRecord := s.dhcpRecord ++ [record] }
    | _ => none
  | Action.rangeEnd =>
    match s.ingest, s.coordinator with
    | IngestPos.atRange, CoordPos.chanClosed => some { s with ingest := IngestPos.exited }
    | _, _ => none
  | Action.signal =>
    match s.coordinator with
    | CoordPos.running => some { s with coordinator := CoordPos.doneClosed }
    | _ => none
  | Action.closeChan =>
    match s.coordinator with
    | CoordPos.doneClosed => some { s with coordinator := CoordPos.chanClosed }
    | _ => none

/-- Run a schedule from a state; `none` if some action is not enabled. -/
def run (s : State) : List Action → Option State
  | [] => some s
  | a :: rest =>
    match step s a with
    | none => none
    | some t => run t rest

/-- The capture goroutine is at `dhcpChan <- record` and `dhcpChan` has been
closed: the send panics. -/
def sendOnClosed (s : State) : Bool :=
  match s.capture, s.coordinator with
  | CapturePos.sending _, CoordPos.chanClosed => true
  | _, _ => false

/-! ## Specification-side vocabulary -/

/-- A frame the specification accepts: it has an Ethernet layer, it has a
DHCPv4 layer, and the operation code of that layer is "request". -/
def Accepted (packet : Packet) : Prop :=
  (∃ eth, packet.ethLayer = some eth) ∧
    ∃ dhcp, packet.dhcpLayer = some dhcp ∧ dhcp.Operation = DHCPOpRequest

/-- The data of the last option of type `t` in the list, if there is one. -/
def lastOptionData (t : Nat) (options : List DHCPOption) : Option (List Nat) :=
  ((options.filter (fun o => o.OptType = t)).getLast?).map (fun o => o.Data)

/-- Dotted-decimal text `a.b.c.d`, with the standard decimal rendering. -/
def dottedDecimal (a b c d : Nat) : String :=
  toString a ++ "." ++ toString b ++ "." ++ toString c ++ "." ++ toString d

/-- Two lower-case hex digits of a byte. -/
def hexByte (b : Nat) : String :=
  String.mk [Nat.digitChar (b / 16), Nat.digitChar (b % 16)]

/-- Colon-separated hex text of a hardware address. -/
def colonHex (m : List Nat) : String :=
  String.intercalate ":" (m.map hexByte)

/-- The capture loop's `select` outcomes for frames that all arrive before
cancellation. -/
def frameEvents (frames : List (Packet × Int)) : List Selected :=
  frames.map (fun f => Selected.packet f.1 f.2)

/-- A UTF-8 continuation byte, `80..BF`. -/
def isContinuation (b : Nat) : Bool := 0x80 ≤ b && b ≤ 0xBF

/-- Length of the well-formed UTF-8 byte sequence at the head of the list
(Unicode standard, table of well-formed UTF-8 byte sequences), 0 if there is
none. -/
def wellFormedPrefix : List Nat → Nat
  | [] => 0
  | b0 :: tl =>
    if b0 ≤ 0x7F then 1
    else if 0xC2 ≤ b0 ∧ b0 ≤ 0xDF then
      match tl with
      | b1 :: _ => if isContinuation b1 then 2 else 0
      | _ => 0
    else if 0xE0 ≤ b0 ∧ b0 ≤ 0xEF then
      match tl with
      | b1 :: b2 :: _ =>
        if (if b0 = 0xE0 then 0xA0 ≤ b1 ∧ b1 ≤ 0xBF
            else if b0 = 0xED then 0x80 ≤ b1 ∧ b1 ≤ 0x9F
            else 0x80 ≤ b1 ∧ b1 ≤ 0xBF) ∧ isContinuation b2 then 3 else 0
      | _ => 0
    else if 0xF0 ≤ b0 ∧ b0 ≤ 0xF4 then
      match tl with
      | b1 :: b2 :: b3 :: _ =>
        if (if b0 = 0xF0 then 0x90 ≤ b1 ∧ b1 ≤ 0xBF
            else if b0 = 0xF4 then 0x80 ≤ b1 ∧ b1 ≤ 0x8F
            else 0x80 ≤ b1 ∧ b1 ≤ 0xBF) ∧ isContinuation b2 ∧ isContinuation b3 then 4 else 0
      | _ => 0
    else 0

/-- The list splits into well-formed UTF-8 byte sequences; the first
argument bounds the number of sequences. -/
def validUTF8Fuel : Nat → List Nat → Bool
  | _, [] => true
  | 0, _ :: _ => false
  | fuel + 1, b :: tl =>
    wellFormedPrefix (b :: tl) ≠ 0 &&
      validUTF8Fuel fuel ((b :: tl).drop (wellFormedPrefix (b :: tl)))

/-- The byte string is valid UTF-8. -/
def validUTF8 (l : List Nat) : Bool := validUTF8Fuel l.length l

/-- Value of a decimal digit character. -/
def digitValue (c : Char) : Nat := c.toNat - 48

/-- Read a list of decimal digits, most significant first, continuing from
the value `acc`. -/
def readDecimal (acc : Nat) (l : List Char) : Nat :=
  l.foldl (fun n c => 10 * n + digitValue c) acc

/-! ## Sanity checks of the embedding on concrete inputs -/

example : ipString [192, 168, 1, 50] = "192.168.1.50" := by decide
example : ipString [] = "<nil>" := by decide
example : ipString [1, 2, 3] = "?010203" := by decide
example : ipString [0x20, 0x01, 0x0d, 0xb8, 0, 0, 0, 0, 0, 0, 0, 0, 0, 0, 0, 1] = "2001:db8::1" := by
  decide
example : ipString [0, 0, 0, 0, 0, 0, 0, 0, 0, 0, 0xff, 0xff, 10, 0, 0, 1] = "10.0.0.1" := by
  decide
example : ipString [0, 0, 0, 0, 0, 0, 0, 0, 0, 0, 0, 0, 0, 0, 0, 0] = "::" := by decide
example : ipString [0, 1, 0, 0, 0, 0, 0, 2, 0, 0, 0, 0, 0, 0, 0, 3] = "1:0:0:2::3" := by decide
example : ipString [0xfe, 0x80, 0, 0, 0, 0, 0, 0, 0, 0, 0, 0, 0, 0, 0, 0] = "fe80::" := by decide
example : hardwareAddrString [0xaa, 0xbb, 0xcc, 0xdd, 0xee, 0xff] = "aa:bb:cc:dd:ee:ff" := by decide
example : formatInt 1700000000000000000 = "1700000000000000000" := by decide
example : formatInt (-42) = "-42" := by decide
example : formatInt 0 = "0" := by decide
example : bytesToString [108, 97, 112, 116, 111, 112, 49] = "laptop1" := by decide
example : jsonStringValue "laptop1" = "laptop1" := by decide
example : jsonStringValue "<nil>" = "<nil>" := by decide
example : jsonStringValue (bytesToString [0xff]) = bytesToString [0xEF, 0xBF, 0xBD] := by decide
example : jsonStringValue (bytesToString [0x61, 0xC3, 0x28]) =
    bytesToString [0x61, 0xEF, 0xBF, 0xBD, 0x28] := by decide
example : jsonStringValue (bytesToString [0xE2, 0x82]) =
    bytesToString [0xEF, 0xBF, 0xBD, 0xEF, 0xBF, 0xBD] := by decide
example : jsonStringValue (bytesToString [0xC3, 0xA9, 0xE2, 0x82, 0xAC, 0xF0, 0x9F, 0x98, 0x80]) =
    bytesToString [0xC3, 0xA9, 0xE2, 0x82, 0xAC, 0xF0, 0x9F, 0x98, 0x80] := by decide
example : decodeRune [0xE2, 0x82, 0xAC] = (0x20AC, 3) := by decide
example : decodeRune [0xF0, 0x9F, 0x98, 0x80] = (0x1F600, 4) := by decide
example : decodeRune [0xEF, 0xBF, 0xBD] = (0xFFFD, 3) := by decide
example : decodeRune [0xED, 0xA0, 0x80] = (RuneError, 1) := by decide
example : validUTF8 [0xC3, 0xA9, 0x61, 0xE2, 0x82, 0xAC, 0xF0, 0x9F, 0x98, 0x80] = true := by
  decide
example : validUTF8 [0xC0, 0x80] = false := by decide
example : validUTF8 [0xED, 0xA0, 0x80] = false := by decide
example : validUTF8 [0xff] = false := by decide
example : dottedDecimal 192 168 1 50 = "192.168.1.50" := by decide
example : colonHex [0xaa, 0xbb, 0xcc, 0xdd, 0xee, 0xff] = "aa:bb:cc:dd:ee:ff" := by decide
example : run initState [Action.signal, Action.closeChan] =
    some { initState with coordinator := CoordPos.chanClosed } := by decide

/-! ## Shared lemmas -/

theorem ingestionLoop_eq_append (store records : List DHCPRecord) :
    ingestionLoop store records = store ++ records := by
  induction records generalizing store with
  | nil => simp [ingestionLoop]
  | cons r rest ih => simp [ingestionLoop, ih]

theorem step_store_prefix (s t : State) (a : Action) (h : step s a = some t) :
    s.dhcpRecord <+: t.dhcpRecord := by
  cases a <;> simp only [step] at h <;> split at h <;>
    first
      | (cases h; simp)
      | (split at h <;> cases h <;> simp)
      | cases h

theorem handlePacket_of_accepted (packet : Packet) (now : Int) (h : Accepted packet) :
    ∃ eth dhcp, packet.ethLayer = some eth ∧ packet.dhcpLayer = some dhcp ∧
      dhcp.Operation = DHCPOpRequest ∧
      handlePacket packet now = some
        { ID := formatInt now, IP := (parseDHCPOptions dhcp.Options).1,
          MAC := hardwareAddrString eth.SrcMAC,
          Hostname := (parseDHCPOptions dhcp.Options).2.2 } := by
  obtain ⟨⟨eth, he⟩, dhcp, hd, hop⟩ := h
  exact ⟨eth, dhcp, he, hd, hop, by simp [handlePacket, he, hd, hop]⟩

theorem handlePacket_of_not_accepted (packet : Packet) (now : Int) (h : ¬ Accepted packet) :
    handlePacket packet now = none := by
  unfold handlePacket
  cases he : packet.ethLayer with
  | none => rfl
  | some eth =>
    cases hd : packet.dhcpLayer with
    | none => rfl
    | some dhcp =>
      by_cases hop : dhcp.Operation = DHCPOpRequest
      · exact absurd ⟨⟨eth, he⟩, dhcp, hd, hop⟩ h
      · simp [hop]

theorem captureDHCPPackets_frames_append (frames : List (Packet × Int)) (rest : List Selected) :
    captureDHCPPackets (frameEvents frames ++ rest) =
      captureDHCPPackets (frameEvents frames) ++ captureDHCPPackets rest := by
  induction frames with
  | nil => simp [frameEvents, captureDHCPPackets]
  | cons f fs ih =>
    have ih2 : captureDHCPPackets (List.map (fun f => Selected.packet f.1 f.2) fs ++ rest) =
        captureDHCPPackets (List.map (fun f => Selected.packet f.1 f.2) fs) ++
          captureDHCPPackets rest := ih
    simp only [frameEvents, List.map_cons, List.cons_append, captureDHCPPackets]
    cases handlePacket f.1 f.2 with
    | none => simpa using ih2
    | some r => simp [ih2]

theorem lastOptionData_cons (t : Nat) (o : DHCPOption) (rest : List DHCPOption) :
    lastOptionData t (o :: rest) =
      if o.OptType = t then some ((lastOptionData t rest).getD o.Data)
      else lastOptionData t rest := by
  unfold lastOptionData
  by_cases h : o.OptType = t
  · rw [if_pos h, List.filter_cons_of_pos (by simpa using h), List.getLast?_cons]
    cases (List.filter (fun o => decide (o.OptType = t)) rest).getLast? <;> rfl
  · rw [if_neg h, List.filter_cons_of_neg (by simpa using h)]

theorem parseLoop_eq (options : List DHCPOption) (ipAddr hostname : String) :
    parseLoop options ipAddr hostname =
      (((lastOptionData DHCPOptRequestIP options).map ipString).getD ipAddr,
        ((lastOptionData DHCPOptHostname options).map bytesToString).getD hostname) := by
  induction options generalizing ipAddr hostname with
  | nil => rfl
  | cons o rest ih =>
    unfold parseLoop
    rw [lastOptionData_cons, lastOptionData_cons]
    by_cases h1 : o.OptType = DHCPOptRequestIP
    · have h2 : ¬ o.OptType = DHCPOptHostname := by
        rw [h1]; decide
      rw [if_pos h1, if_pos h1, if_neg h2, ih]
      cases lastOptionData DHCPOptRequestIP rest <;> rfl
    · rw [if_neg h1, if_neg h1]
      by_cases h2 : o.OptType = DHCPOptHostname
      · rw [if_pos h2, if_pos h2, ih]
        cases lastOptionData DHCPOptHostname rest <;> rfl
      · rw [if_neg h2, if_neg h2, ih]

theorem parseDHCPOptions_eq (options : List DHCPOption) :
    parseDHCPOptions options =
      (((lastOptionData DHCPOptRequestIP options).map ipString).getD "", "",
        ((lastOptionData DHCPOptHostname options).map bytesToString).getD "") := by
  simp [parseDHCPOptions, parseLoop_eq]

theorem lastOptionData_eq_none_iff (t : Nat) (options : List DHCPOption) :
    lastOptionData t options = none ↔ ∀ o ∈ options, o.OptType ≠ t := by
  simp [lastOptionData, List.filter_eq_nil_iff]

theorem lastOptionData_append_cons (t : Nat) (pre post : List DHCPOption) (o : DHCPOption)
    (ho : o.OptType = t) (hpost : ∀ x ∈ post, x.OptType ≠ t) :
    lastOptionData t (pre ++ o :: post) = some o.Data := by
  have hnil : List.filter (fun x => decide (x.OptType = t)) post = [] := by
    simpa [List.filter_eq_nil_iff] using hpost
  unfold lastOptionData
  rw [List.filter_append, List.filter_cons_of_pos (by simpa using ho), hnil,
    List.getLast?_concat]
  rfl

/-! ### Text rendering -/

set_option maxRecDepth 100000 in
theorem appendDecimal_nil_eq_repr : ∀ x < 256, appendDecimal [] x = (Nat.repr x).data := by
  decide

theorem appendDecimal_eq_append (b : List Char) (x : Nat) :
    appendDecimal b x = b ++ appendDecimal [] x := by
  unfold appendDecimal
  by_cases h1 : x ≥ 100 <;> by_cases h2 : x ≥ 10 <;> simp [h1, h2]

theorem hexDigit_eq_digitChar : ∀ n < 16, hexDigit n = Nat.digitChar n := by decide

theorem appendTo4_eq_dottedDecimal (a b c d : Nat) (ha : a < 256) (hb : b < 256)
    (hc : c < 256) (hd : d < 256) :
    String.mk (appendTo4 [] a b c d) = dottedDecimal a b c d := by
  have e : ∀ (s : String) (l : List Char), s.data = l → String.mk l = s := by
    intro s l h; rw [← h]
  apply e
  unfold appendTo4 dottedDecimal
  simp only [String.data_append]
  rw [appendDecimal_eq_append _ d, appendDecimal_eq_append _ c, appendDecimal_eq_append _ b,
    appendDecimal_nil_eq_repr a ha, appendDecimal_nil_eq_repr b hb,
    appendDecimal_nil_eq_repr c hc, appendDecimal_nil_eq_repr d hd]
  rfl

theorem ipString_four_bytes (a b c d : Nat) (ha : a < 256) (hb : b < 256)
    (hc : c < 256) (hd : d < 256) :
    ipString [a, b, c, d] = dottedDecimal a b c d := by
  rw [← appendTo4_eq_dottedDecimal a b c d ha hb hc hd]
  rfl

theorem intercalate_go_hexByte (acc : String) (i : Nat) (rest : List Nat)
    (h : ∀ x ∈ rest, x < 256) :
    String.intercalate.go acc ":" (rest.map hexByte) =
      String.mk (acc.data ++ hardwareAddrLoop (i + 1) rest) := by
  induction rest generalizing acc i with
  | nil => simp [String.intercalate.go, hardwareAddrLoop]
  | cons b rest ih =>
    have hb : b < 256 := h b (List.mem_cons_self _ _)
    have h1 : hexDigit (b / 16) = Nat.digitChar (b / 16) :=
      hexDigit_eq_digitChar _ (by omega)
    have h2 : hexDigit (b % 16) = Nat.digitChar (b % 16) :=
      hexDigit_eq_digitChar _ (by omega)
    simp only [List.map_cons, String.intercalate.go]
    rw [ih _ (i + 1) (fun x hx => h x (List.mem_cons_of_mem _ hx))]
    simp [hardwareAddrLoop, hexByte, h1, h2, String.data_append]

theorem hardwareAddrString_eq_colonHex (m : List Nat) (h : ∀ x ∈ m, x < 256) :
    hardwareAddrString m = colonHex m := by
  cases m with
  | nil => rfl
  | cons b rest =>
    have hb : b < 256 := h b (List.mem_cons_self _ _)
    have h1 : hexDigit (b / 16) = Nat.digitChar (b / 16) :=
      hexDigit_eq_digitChar _ (by omega)
    have h2 : hexDigit (b % 16) = Nat.digitChar (b % 16) :=
      hexDigit_eq_digitChar _ (by omega)
    unfold colonHex
    simp only [List.map_cons, String.intercalate]
    rw [intercalate_go_hexByte _ 0 rest (fun x hx => h x (List.mem_cons_of_mem _ hx))]
    simp [hardwareAddrString, hardwareAddrLoop, hexByte, h1, h2]

theorem formatBits_head (fuel u : Nat) (acc : List Char) :
    ∃ k, k < 10 ∧ ∃ tl, formatBits fuel u acc = hexDigit k :: tl := by
  induction fuel generalizing u acc with
  | zero => exact ⟨u % 10, Nat.mod_lt _ (by decide), acc, rfl⟩
  | succ n ih =>
    unfold formatBits
    by_cases h : u ≥ 10
    · rw [if_pos h]; exact ih _ _
    · rw [if_neg h]; exact ⟨u, by omega, acc, rfl⟩

theorem formatInt_ne_empty (i : Int) : formatInt i ≠ "" := by
  unfold formatInt
  obtain ⟨k, _, tl, h⟩ := formatBits_head i.natAbs i.natAbs []
  intro he
  have hd := congrArg String.data he
  by_cases hi : i < 0
  · simp [hi] at hd
  · simp [hi, h] at hd

theorem digitValue_hexDigit : ∀ k < 10, digitValue (hexDigit k) = k := by decide

theorem hexDigit_ne_minus : ∀ k < 10, hexDigit k ≠ '-' := by decide

theorem readDecimal_formatBits (fuel u : Nat) (acc : List Char) (h : u ≤ fuel) :
    readDecimal 0 (formatBits fuel u acc) = readDecimal u acc := by
  induction fuel generalizing u acc with
  | zero =>
    have hu : u = 0 := by omega
    subst hu
    simp [formatBits, readDecimal, digitValue_hexDigit 0 (by decide)]
  | succ n ih =>
    unfold formatBits
    by_cases h10 : u ≥ 10
    · rw [if_pos h10, ih _ _ (by omega)]
      simp only [readDecimal, List.foldl_cons,
        digitValue_hexDigit (u % 10) (Nat.mod_lt _ (by decide))]
      congr 1
      omega
    · rw [if_neg h10]
      simp [readDecimal, digitValue_hexDigit u (by omega)]

theorem formatInt_injective (i j : Int) (h : formatInt i = formatInt j) : i = j := by
  have hd := congrArg String.data h
  obtain ⟨ki, hki, ti, hti⟩ := formatBits_head i.natAbs i.natAbs []
  obtain ⟨kj, hkj, tj, htj⟩ := formatBits_head j.natAbs j.natAbs []
  have hread : ∀ n : Nat, readDecimal 0 (formatBits n n []) = n := by
    intro n
    rw [readDecimal_formatBits n n [] (le_refl n)]
    rfl
  unfold formatInt at hd
  by_cases hi : i < 0 <;> by_cases hj : j < 0
  · simp only [hi, hj, if_true, List.cons.injEq, true_and] at hd
    have := congrArg (readDecimal 0) hd
    rw [hread, hread] at this
    omega
  · simp only [hi, hj, if_true, if_false] at hd
    rw [htj] at hd
    simp only [List.cons.injEq] at hd
    exact absurd hd.1.symm (hexDigit_ne_minus kj hkj)
  · simp only [hi, hj, if_true, if_false] at hd
    rw [hti] at hd
    simp only [List.cons.injEq] at hd
    exact absurd hd.1 (hexDigit_ne_minus ki hki)
  · simp only [hi, hj, if_false] at hd
    have := congrArg (readDecimal 0) hd
    rw [hread, hread] at this
    omega

theorem capture_accepted_frames_ids (frames : List (Packet × Int))
    (hacc : ∀ f ∈ frames, Accepted f.1) :
    (captureDHCPPackets (frameEvents frames)).map (fun r => r.ID) =
      frames.map (fun f => formatInt f.2) := by
  induction frames with
  | nil => rfl
  | cons f fs ih =>
    obtain ⟨eth, dhcp, _, _, _, hr⟩ :=
      handlePacket_of_accepted f.1 f.2 (hacc f (List.mem_cons_self _ _))
    have ih2 := ih (fun g hg => hacc g (List.mem_cons_of_mem _ hg))
    simp only [frameEvents] at ih2
    simp [frameEvents, captureDHCPPackets, hr, ih2]

/-! ### JSON strings -/

theorem first_two (b : Nat) (h : 0xC2 ≤ b ∧ b ≤ 0xDF) : first b = 0x02 := by
  unfold first; split_ifs <;> omega

theorem first_three (b : Nat) (h : 0xE0 ≤ b ∧ b ≤ 0xEF) :
    first b = if b = 0xE0 then 0x13 else if b = 0xED then 0x23 else 0x03 := by
  unfold first; split_ifs <;> omega

theorem first_four (b : Nat) (h : 0xF0 ≤ b ∧ b ≤ 0xF4) :
    first b = if b = 0xF0 then 0x34 else if b = 0xF4 then 0x44 else 0x04 := by
  unfold first; split_ifs <;> omega

theorem decodeRune_size_two (b0 b1 : Nat) (tl : List Nat) (h0 : 0xC2 ≤ b0 ∧ b0 ≤ 0xDF)
    (h1 : 0x80 ≤ b1 ∧ b1 ≤ 0xBF) : (decodeRune (b0 :: b1 :: tl)).2 = 2 := by
  have hlo : ¬ b1 < 0x80 := by omega
  have hhi : ¬ 0xBF < b1 := by omega
  have hl : ¬ tl.length + 1 + 1 < 2 := by omega
  simp [decodeRune, first_two b0 h0, acceptRanges, hlo, hhi, hl]

theorem decodeRune_size_three (b0 b1 b2 : Nat) (tl : List Nat) (h0 : 0xE0 ≤ b0 ∧ b0 ≤ 0xEF)
    (h1 : if b0 = 0xE0 then 0xA0 ≤ b1 ∧ b1 ≤ 0xBF
      else if b0 = 0xED then 0x80 ≤ b1 ∧ b1 ≤ 0x9F else 0x80 ≤ b1 ∧ b1 ≤ 0xBF)
    (h2 : 0x80 ≤ b2 ∧ b2 ≤ 0xBF) : (decodeRune (b0 :: b1 :: b2 :: tl)).2 = 3 := by
  have hlo : ¬ b2 < 0x80 := by omega
  have hhi : ¬ 0xBF < b2 := by omega
  have hl : ¬ tl.length + 1 + 1 + 1 < 3 := by omega
  by_cases e0 : b0 = 0xE0
  · rw [if_pos e0] at h1
    have hf : first b0 = 0x13 := by rw [first_three b0 h0, if_pos e0]
    have a : ¬ b1 < 0xA0 := by omega
    have b : ¬ 0xBF < b1 := by omega
    simp [decodeRune, hf, acceptRanges, hlo, hhi, a, b, hl]
  · rw [if_neg e0] at h1
    by_cases ed : b0 = 0xED
    · rw [if_pos ed] at h1
      have hf : first b0 = 0x23 := by rw [first_three b0 h0, if_neg e0, if_pos ed]
      have a : ¬ b1 < 0x80 := by omega
      have b : ¬ 0x9F < b1 := by omega
      simp [decodeRune, hf, acceptRanges, hlo, hhi, a, b, hl]
    · rw [if_neg ed] at h1
      have hf : first b0 = 0x03 := by rw [first_three b0 h0, if_neg e0, if_neg ed]
      have a : ¬ b1 < 0x80 := by omega
      have b : ¬ 0xBF < b1 := by omega
      simp [decodeRune, hf, acceptRanges, hlo, hhi, a, b, hl]

theorem decodeRune_size_four (b0 b1 b2 b3 : Nat) (tl : List Nat) (h0 : 0xF0 ≤ b0 ∧ b0 ≤ 0xF4)
    (h1 : if b0 = 0xF0 then 0x90 ≤ b1 ∧ b1 ≤ 0xBF
      else if b0 = 0xF4 then 0x80 ≤ b1 ∧ b1 ≤ 0x8F else 0x80 ≤ b1 ∧ b1 ≤ 0xBF)
    (h2 : 0x80 ≤ b2 ∧ b2 ≤ 0xBF) (h3 : 0x80 ≤ b3 ∧ b3 ≤ 0xBF) :
    (decodeRune (b0 :: b1 :: b2 :: b3 :: tl)).2 = 4 := by
  have hlo : ¬ b2 < 0x80 := by omega
  have hhi : ¬ 0xBF < b2 := by omega
  have hlo3 : ¬ b3 < 0x80 := by omega
  have hhi3 : ¬ 0xBF < b3 := by omega
  have hl : ¬ tl.length + 1 + 1 + 1 + 1 < 4 := by omega
  by_cases e0 : b0 = 0xF0
  · rw [if_pos e0] at h1
    have hf : first b0 = 0x34 := by rw [first_four b0 h0, if_pos e0]
    have a : ¬ b1 < 0x90 := by omega
    have b : ¬ 0xBF < b1 := by omega
    simp [decodeRune, hf, acceptRanges, hlo, hhi, hlo3, hhi3, a, b, hl]
  · rw [if_neg e0] at h1
    by_cases ed : b0 = 0xF4
    · rw [if_pos ed] at h1
      have hf : first b0 = 0x44 := by rw [first_four b0 h0, if_neg e0, if_pos ed]
      have a : ¬ b1 < 0x80 := by omega
      have b : ¬ 0x8F < b1 := by omega
      simp [decodeRune, hf, acceptRanges, hlo, hhi, hlo3, hhi3, a, b, hl]
    · rw [if_neg ed] at h1
      have hf : first b0 = 0x04 := by rw [first_four b0 h0, if_neg e0, if_neg ed]
      have a : ¬ b1 < 0x80 := by omega
      have b : ¬ 0xBF < b1 := by omega
      simp [decodeRune, hf, acceptRanges, hlo, hhi, hlo3, hhi3, a, b, hl]

theorem of_ite_eq (P : Prop) [Decidable P] (k n : Nat) (h : (if P then k else 0) = n)
    (h0 : n ≠ 0) : P ∧ n = k := by
  by_cases hp : P
  · rw [if_pos hp] at h; exact ⟨hp, h.symm⟩
  · rw [if_neg hp] at h; omega

theorem decodeRune_of_wellFormed (b0 : Nat) (tl : List Nat) (n : Nat) (hb0 : 0x80 ≤ b0)
    (hn : wellFormedPrefix (b0 :: tl) = n) (h0 : n ≠ 0) :
    (decodeRune ((b0 :: tl).take 4)).2 = n ∧ 2 ≤ n := by
  have hA : ¬ b0 ≤ 0x7F := by omega
  by_cases c2 : 0xC2 ≤ b0 ∧ b0 ≤ 0xDF
  · rcases tl with _ | ⟨b1, tl⟩
    · simp [wellFormedPrefix, hA, c2] at hn; omega
    · by_cases k1 : isContinuation b1 = true
      · have k1b : 0x80 ≤ b1 ∧ b1 ≤ 0xBF := by simpa [isContinuation] using k1
        have e : n = 2 := by simp [wellFormedPrefix, hA, c2, k1] at hn; omega
        subst e
        refine ⟨?_, le_refl 2⟩
        rcases tl with _ | ⟨b2, _ | ⟨b3, tl⟩⟩ <;> exact decodeRune_size_two _ _ _ c2 k1b
      · simp [wellFormedPrefix, hA, c2, k1] at hn; omega
  · by_cases c3 : 0xE0 ≤ b0 ∧ b0 ≤ 0xEF
    · rcases tl with _ | ⟨b1, _ | ⟨b2, tl⟩⟩
      · simp [wellFormedPrefix, hA, c2, c3] at hn; omega
      · simp [wellFormedPrefix, hA, c2, c3] at hn; omega
      · simp only [wellFormedPrefix, if_neg hA, if_neg c2, if_pos c3] at hn
        obtain ⟨hc, e⟩ := of_ite_eq _ _ _ hn h0
        subst e
        refine ⟨?_, by omega⟩
        have k2 : 0x80 ≤ b2 ∧ b2 ≤ 0xBF := by simpa [isContinuation] using hc.2
        rcases tl with _ | ⟨b3, tl⟩ <;> exact decodeRune_size_three _ _ _ _ c3 hc.1 k2
    · by_cases c4 : 0xF0 ≤ b0 ∧ b0 ≤ 0xF4
      · rcases tl with _ | ⟨b1, _ | ⟨b2, _ | ⟨b3, tl⟩⟩⟩
        · simp [wellFormedPrefix, hA, c2, c3, c4] at hn; omega
        · simp [wellFormedPrefix, hA, c2, c3, c4] at hn; omega
        · simp [wellFormedPrefix, hA, c2, c3, c4] at hn; omega
        · simp only [wellFormedPrefix, if_neg hA, if_neg c2, if_neg c3, if_pos c4] at hn
          obtain ⟨hc, e⟩ := of_ite_eq _ _ _ hn h0
          subst e
          refine ⟨?_, by omega⟩
          have k2 : 0x80 ≤ b2 ∧ b2 ≤ 0xBF := by simpa [isContinuation] using hc.2.1
          have k3 : 0x80 ≤ b3 ∧ b3 ≤ 0xBF := by simpa [isContinuation] using hc.2.2
          exact decodeRune_size_four _ _ _ _ [] c4 hc.1 k2 k3
      · simp [wellFormedPrefix, hA, c2, c3, c4] at hn; omega

theorem appendStringLoop_of_valid (fuel : Nat) (l : List Char) (hl : l.length ≤ fuel)
    (hv : validUTF8Fuel fuel (l.map Char.toNat) = true) : appendStringLoop fuel l = l := by
  induction fuel generalizing l with
  | zero =>
    cases l with
    | nil => rfl
    | cons c rest => simp at hl
  | succ k ih =>
    cases l with
    | nil => rfl
    | cons c rest =>
      simp only [List.map_cons, validUTF8Fuel, Bool.and_eq_true, decide_eq_true_eq] at hv
      obtain ⟨hne, hrest⟩ := hv
      simp only [List.length_cons] at hl
      unfold appendStringLoop
      by_cases hc : c.toNat < 0x80
      · rw [if_pos hc]
        have h1 : wellFormedPrefix (c.toNat :: List.map Char.toNat rest) = 1 := by
          simp [wellFormedPrefix, show c.toNat ≤ 127 by omega]
        rw [h1] at hrest
        rw [ih rest (by omega) (by simpa using hrest)]
      · rw [if_neg hc]
        obtain ⟨hsz, h2⟩ := decodeRune_of_wellFormed c.toNat (rest.map Char.toNat) _
          (by omega) rfl hne
        have htake : List.map Char.toNat (List.take 4 (c :: rest)) =
            List.take 4 (c.toNat :: List.map Char.toNat rest) := by
          rw [List.map_take, List.map_cons]
        simp only [htake, hsz]
        have hne1 : ¬ ((decodeRune (List.take 4 (c.toNat :: List.map Char.toNat rest))).1 =
            RuneError ∧ wellFormedPrefix (c.toNat :: List.map Char.toNat rest) = 1) := by
          intro h; omega
        rw [if_neg hne1]
        have hdrop : List.drop (wellFormedPrefix (c.toNat :: List.map Char.toNat rest))
            (c.toNat :: List.map Char.toNat rest) =
            List.map Char.toNat (List.drop
              (wellFormedPrefix (c.toNat :: List.map Char.toNat rest)) (c :: rest)) := by
          rw [List.map_drop, List.map_cons]
        rw [hdrop] at hrest
        rw [ih _ (by simp only [List.length_drop, List.length_cons]; omega) hrest]
        exact List.take_append_drop _ _

theorem appendStringLoop_of_ascii (fuel : Nat) (l : List Char) (hl : l.length ≤ fuel)
    (ha : ∀ c ∈ l, c.toNat < 0x80) : appendStringLoop fuel l = l := by
  induction fuel generalizing l with
  | zero =>
    cases l with
    | nil => rfl
    | cons c rest => simp at hl
  | succ k ih =>
    cases l with
    | nil => rfl
    | cons c rest =>
      simp only [List.length_cons] at hl
      unfold appendStringLoop
      rw [if_pos (ha c (List.mem_cons_self _ _)),
        ih rest (by omega) (fun x hx => ha x (List.mem_cons_of_mem _ hx))]

theorem jsonStringValue_of_ascii (l : List Char) (ha : ∀ c ∈ l, c.toNat < 0x80) :
    jsonStringValue (String.mk l) = String.mk l := by
  show String.mk (appendStringLoop l.length l) = String.mk l
  rw [appendStringLoop_of_ascii _ _ (le_refl _) ha]

set_option maxRecDepth 100000 in
theorem toNat_ofNat_byte : ∀ x < 256, (Char.ofNat x).toNat = x := by
  decide

theorem jsonStringValue_of_valid (h : List Nat) (hh : ∀ x ∈ h, x < 256)
    (hv : validUTF8 h = true) : jsonStringValue (bytesToString h) = bytesToString h := by
  have hmap : List.map Char.toNat (List.map Char.ofNat h) = h := by
    rw [List.map_map]
    conv_rhs => rw [← List.map_id h]
    exact List.map_congr_left (fun x hx => toNat_ofNat_byte x (hh x hx))
  show String.mk (appendStringLoop (List.map Char.ofNat h).length (List.map Char.ofNat h)) =
    String.mk (List.map Char.ofNat h)
  rw [appendStringLoop_of_valid _ _ (le_refl _)
    (by rw [hmap, List.length_map]; exact hv)]

theorem hexDigit_ascii (n : Nat) : (hexDigit n).toNat < 0x80 := by
  by_cases h : n < 16
  · revert n
    decide
  · unfold hexDigit
    rw [List.getD_eq_default _ _ (by simpa using h)]
    decide

theorem formatBits_ascii (fuel u : Nat) (acc : List Char) (ha : ∀ c ∈ acc, c.toNat < 0x80) :
    ∀ c ∈ formatBits fuel u acc, c.toNat < 0x80 := by
  induction fuel generalizing u acc with
  | zero =>
    intro c hc
    simp only [formatBits, List.mem_cons] at hc
    rcases hc with rfl | hc
    · exact hexDigit_ascii _
    · exact ha c hc
  | succ n ih =>
    unfold formatBits
    by_cases h : u ≥ 10
    · rw [if_pos h]
      apply ih
      intro c hc
      rcases List.mem_cons.mp hc with rfl | hc
      · exact hexDigit_ascii _
      · exact ha c hc
    · rw [if_neg h]
      intro c hc
      rcases List.mem_cons.mp hc with rfl | hc
      · exact hexDigit_ascii _
      · exact ha c hc

theorem jsonStringValue_formatInt (i : Int) : jsonStringValue (formatInt i) = formatInt i := by
  have hb := formatBits_ascii i.natAbs i.natAbs [] (by simp)
  unfold formatInt
  by_cases hi : i < 0
  · rw [if_pos hi]
    apply jsonStringValue_of_ascii
    intro c hc
    rcases List.mem_cons.mp hc with rfl | hc
    · decide
    · exact hb c hc
  · rw [if_neg hi]
    exact jsonStringValue_of_ascii _ hb

theorem appendDecimal_ascii (b : List Char) (x : Nat) (hb : ∀ c ∈ b, c.toNat < 0x80) :
    ∀ c ∈ appendDecimal b x, c.toNat < 0x80 := by
  have snoc : ∀ (l : List Char) (k : Nat), (∀ c ∈ l, c.toNat < 0x80) →
      ∀ c ∈ l ++ [hexDigit k], c.toNat < 0x80 := by
    intro l k hl c hc
    rcases List.mem_append.mp hc with hc | hc
    · exact hl c hc
    · rw [List.mem_singleton.mp hc]; exact hexDigit_ascii k
  unfold appendDecimal
  by_cases h1 : x ≥ 100 <;> by_cases h2 : x ≥ 10 <;> simp only [h1, h2, if_true, if_false]
  · exact snoc _ _ (snoc _ _ (snoc _ _ hb))
  · exact snoc _ _ (snoc _ _ hb)
  · exact snoc _ _ (snoc _ _ hb)
  · exact snoc _ _ hb

theorem jsonStringValue_dottedDecimal (a b c d : Nat) (ha : a < 256) (hb : b < 256)
    (hc : c < 256) (hd : d < 256) :
    jsonStringValue (dottedDecimal a b c d) = dottedDecimal a b c d := by
  rw [← appendTo4_eq_dottedDecimal a b c d ha hb hc hd]
  apply jsonStringValue_of_ascii
  unfold appendTo4
  have dot : ∀ (l : List Char), (∀ x ∈ l, x.toNat < 0x80) →
      ∀ x ∈ l ++ ['.'], x.toNat < 0x80 := by
    intro l hl x hx
    rcases List.mem_append.mp hx with hx | hx
    · exact hl x hx
    · rw [List.mem_singleton.mp hx]; decide
  exact appendDecimal_ascii _ _ (dot _ (appendDecimal_ascii _ _ (dot _
    (appendDecimal_ascii _ _ (dot _ (appendDecimal_ascii _ _ (by simp)))))))

theorem hardwareAddrLoop_ascii (i : Nat) (m : List Nat) :
    ∀ c ∈ hardwareAddrLoop i m, c.toNat < 0x80 := by
  induction m generalizing i with
  | nil => simp [hardwareAddrLoop]
  | cons b rest ih =>
    intro c hc
    unfold hardwareAddrLoop at hc
    rcases List.mem_append.mp hc with hc | hc
    · by_cases hi : i > 0
      · rw [if_pos hi, List.mem_singleton] at hc
        rw [hc]; decide
      · rw [if_neg hi] at hc
        exact absurd hc (List.not_mem_nil _)
    · rcases List.mem_cons.mp hc with rfl | hc
      · exact hexDigit_ascii _
      · rcases List.mem_cons.mp hc with rfl | hc
        · exact hexDigit_ascii _
        · exact ih _ c hc

theorem jsonStringValue_hardwareAddrString (m : List Nat) :
    jsonStringValue (hardwareAddrString m) = hardwareAddrString m := by
  unfold hardwareAddrString
  by_cases h : m.length = 0
  · rw [if_pos h]; rfl
  · rw [if_neg h]
    exact jsonStringValue_of_ascii _ (hardwareAddrLoop_ascii 0 m)

/-! ### Option lists -/

theorem lastOptionData_mem (t : Nat) (options : List DHCPOption) (data : List Nat)
    (h : lastOptionData t options = some data) :
    ∃ o ∈ options, o.OptType = t ∧ o.Data = data := by
  unfold lastOptionData at h
  cases hl : (List.filter (fun o => decide (o.OptType = t)) options).getLast? with
  | none => simp [hl] at h
  | some o =>
    have hmem := List.mem_of_getLast?_eq_some hl
    rw [List.mem_filter] at hmem
    refine ⟨o, hmem.1, by simpa using hmem.2, ?_⟩
    simpa [hl] using h

/-! ## C1: which frames are published -/

/-- C1: a frame handled by the capture loop yields a record on the handoff
channel exactly when it has an Ethernet layer, a DHCPv4 layer and operation
code "request"; for an accepted frame one record is published, in place, and
for any other frame nothing is published, the rest of the loop is unaffected
and the store is unchanged (from the empty store its length stays 0). -/
theorem capture_publishes_iff_accepted (packet : Packet) (now : Int) (rest : List Selected)
    (store : List DHCPRecord) :
    ((∃ record, captureDHCPPackets [Selected.packet packet now] = [record]) ↔ Accepted packet) ∧
    (Accepted packet → ∃ record, handlePacket packet now = some record ∧
      captureDHCPPackets (Selected.packet packet now :: rest) =
        record :: captureDHCPPackets rest) ∧
    (¬ Accepted packet →
      captureDHCPPackets (Selected.packet packet now :: rest) = captureDHCPPackets rest ∧
      captureDHCPPackets [Selected.packet packet now] = [] ∧
      ingestionLoop store (captureDHCPPackets [Selected.packet packet now]) = store ∧
      (ingestionLoop [] (captureDHCPPackets [Selected.packet packet now])).length = 0) := by
  by_cases h : Accepted packet
  · obtain ⟨eth, dhcp, _, _, _, hr⟩ := handlePacket_of_accepted packet now h
    have h1 : ∀ l, captureDHCPPackets (Selected.packet packet now :: l) =
        { ID := formatInt now, IP := (parseDHCPOptions dhcp.Options).1,
          MAC := hardwareAddrString eth.SrcMAC,
          Hostname := (parseDHCPOptions dhcp.Options).2.2 } :: captureDHCPPackets l := by
      intro l
      simp [captureDHCPPackets, hr]
    exact ⟨⟨fun _ => h, fun _ => ⟨_, h1 []⟩⟩, fun _ => ⟨_, hr, h1 rest⟩, fun hn => absurd h hn⟩
  · have hr := handlePacket_of_not_accepted packet now h
    refine ⟨⟨fun ⟨r, hr2⟩ => ?_, fun ha => absurd ha h⟩, fun ha => absurd ha h, fun _ => ?_⟩
    · simp [captureDHCPPackets, hr] at hr2
    · simp [captureDHCPPackets, hr, ingestionLoop]

/-- Witness of C1: a DHCP reply frame is not accepted, so from the empty
store the length stays 0. -/
theorem capture_publishes_iff_accepted_witness :
    (ingestionLoop [] (captureDHCPPackets
      [Selected.packet ⟨some ⟨[0xaa, 0xbb, 0xcc, 0xdd, 0xee, 0xff]⟩,
        some ⟨DHCPOpReply, [⟨DHCPOptRequestIP, 4, [192, 168, 1, 50]⟩]⟩⟩
        1700000000000000000])).length = 0 :=
  ((capture_publishes_iff_accepted
    ⟨some ⟨[0xaa, 0xbb, 0xcc, 0xdd, 0xee, 0xff]⟩,
      some ⟨DHCPOpReply, [⟨DHCPOptRequestIP, 4, [192, 168, 1, 50]⟩]⟩⟩
    1700000000000000000 [] []).2.2
    (by
      rintro ⟨_, dhcp, hd, hop⟩
      cases hd
      exact absurd hop (by decide))).2.2.2

/-- Scenario of C1: a DHCP reply frame and a frame without DHCP layer are
both dropped, and the empty store stays empty. -/
theorem capture_drops_reply_and_plain_udp :
    ingestionLoop [] (captureDHCPPackets
      [Selected.packet ⟨some ⟨[0xaa, 0xbb, 0xcc, 0xdd, 0xee, 0xff]⟩,
          some ⟨DHCPOpReply, [⟨DHCPOptRequestIP, 4, [192, 168, 1, 50]⟩]⟩⟩ 1700000000000000000,
        Selected.packet ⟨some ⟨[0xaa, 0xbb, 0xcc, 0xdd, 0xee, 0xff]⟩, none⟩
          1700000000000000001]) = [] := by
  decide

/-! ## C2: one request frame, end to end -/

/-- C2, counterexample: a request frame whose hostname option holds the single
byte `ff`.  The record in the store has that byte as hostname, and the client
reads U+FFFD (bytes `ef bf bd`) in its place, which is not `h`. -/
theorem invalid_utf8_hostname_is_replaced :
    getAccessRecords (ingestionLoop [] (captureDHCPPackets
      [Selected.packet ⟨some ⟨[0xaa, 0xbb, 0xcc, 0xdd, 0xee, 0xff]⟩,
        some ⟨DHCPOpRequest, [⟨DHCPOptRequestIP, 4, [192, 168, 1, 50]⟩,
          ⟨DHCPOptHostname, 1, [0xff]⟩]⟩⟩ 1700000000000000000])) =
      { status := 200,
        body := [{ ID := "1700000000000000000", IP := "192.168.1.50",
                   MAC := "aa:bb:cc:dd:ee:ff",
                   Hostname := bytesToString [0xef, 0xbf, 0xbd] }] } ∧
    bytesToString [0xef, 0xbf, 0xbd] ≠ bytesToString [0xff] ∧
    ingestionLoop [] (captureDHCPPackets
      [Selected.packet ⟨some ⟨[0xaa, 0xbb, 0xcc, 0xdd, 0xee, 0xff]⟩,
        some ⟨DHCPOpRequest, [⟨DHCPOptRequestIP, 4, [192, 168, 1, 50]⟩,
          ⟨DHCPOptHostname, 1, [0xff]⟩]⟩⟩ 1700000000000000000]) =
      [{ ID := "1700000000000000000", IP := "192.168.1.50", MAC := "aa:bb:cc:dd:ee:ff",
         Hostname := bytesToString [0xff] }] := by
  decide

/-- C2, amended: a DHCP request frame with source MAC `m`, whose requested-IP
option holds the four bytes `a b c d` and whose hostname option holds `h`
(for a frame that repeats an option: the last occurrence, the one the scanner
keeps), with `h` valid UTF-8, captured and ingested from the empty store: the
client of the access-records query gets status 200 and an array of exactly
one record, whose ip is `a.b.c.d`, whose mac is the colon-separated hex of
`m`, whose hostname is `h` and whose id, the formatted clock reading, is not
empty. -/
theorem single_request_end_to_end (m : List Nat) (a b c d : Nat) (h : List Nat) (now : Int)
    (options : List DHCPOption) (hm : ∀ x ∈ m, x < 256)
    (ha : a < 256) (hb : b < 256) (hc : c < 256) (hd : d < 256)
    (hh : ∀ x ∈ h, x < 256) (hutf : validUTF8 h = true)
    (hip : lastOptionData DHCPOptRequestIP options = some [a, b, c, d])
    (hhost : lastOptionData DHCPOptHostname options = some h) :
    ∃ id, id ≠ "" ∧ id = formatInt now ∧
      getAccessRecords (ingestionLoop [] (captureDHCPPackets
        [Selected.packet ⟨some ⟨m⟩, some ⟨DHCPOpRequest, options⟩⟩ now])) =
      { status := 200,
        body := [{ ID := id, IP := dottedDecimal a b c d, MAC := colonHex m,
                   Hostname := bytesToString h }] } := by
  refine ⟨formatInt now, formatInt_ne_empty now, rfl, ?_⟩
  have hmac := jsonStringValue_hardwareAddrString m
  rw [hardwareAddrString_eq_colonHex m hm] at hmac
  simp [getAccessRecords, jsonRecord, accessRecords, StatusOK, ingestionLoop,
    captureDHCPPackets, handlePacket, parseDHCPOptions_eq, hip, hhost,
    ipString_four_bytes a b c d ha hb hc hd, hardwareAddrString_eq_colonHex m hm,
    jsonStringValue_formatInt, jsonStringValue_dottedDecimal a b c d ha hb hc hd, hmac,
    jsonStringValue_of_valid h hh hutf]

/-- Witness of C2 amended: the frame of the end-to-end scenario, ip
192.168.1.50, mac aa:bb:cc:dd:ee:ff, hostname laptop1. -/
theorem single_request_end_to_end_witness :
    ∃ id, id ≠ "" ∧ id = formatInt 1700000000000000000 ∧
      getAccessRecords (ingestionLoop [] (captureDHCPPackets
        [Selected.packet ⟨some ⟨[0xaa, 0xbb, 0xcc, 0xdd, 0xee, 0xff]⟩,
          some ⟨DHCPOpRequest, [⟨53, 1, [3]⟩, ⟨DHCPOptRequestIP, 4, [192, 168, 1, 50]⟩,
            ⟨DHCPOptHostname, 7, [108, 97, 112, 116, 111, 112, 49]⟩]⟩⟩
          1700000000000000000])) =
      { status := 200,
        body := [{ ID := id, IP := "192.168.1.50", MAC := "aa:bb:cc:dd:ee:ff",
                   Hostname := "laptop1" }] } :=
  single_request_end_to_end [0xaa, 0xbb, 0xcc, 0xdd, 0xee, 0xff] 192 168 1 50
    [108, 97, 112, 116, 111, 112, 49] 1700000000000000000
    [⟨53, 1, [3]⟩, ⟨DHCPOptRequestIP, 4, [192, 168, 1, 50]⟩,
      ⟨DHCPOptHostname, 7, [108, 97, 112, 116, 111, 112, 49]⟩]
    (by decide) (by decide) (by decide) (by decide) (by decide) (by decide) (by decide)
    (by decide) (by decide)

/-! ## C3: record order is capture order -/

/-- C3: the ingestion loop appends the published records to the store in the
order of publication, and the capture loop publishes in frame order: when
frame A is handled before frame B and both produce records, the store holds
A's record before B's, with exactly the records of the frames before, between
and after them around (no reordering, no loss, no duplication). -/
theorem record_order_is_capture_order (store : List DHCPRecord)
    (pre mid : List (Packet × Int)) (post : List Selected) (A B : Packet × Int)
    (rA rB : DHCPRecord) (hA : handlePacket A.1 A.2 = some rA)
    (hB : handlePacket B.1 B.2 = some rB) :
    (∀ s rs : List DHCPRecord, ingestionLoop s rs = s ++ rs) ∧
    ingestionLoop store (captureDHCPPackets
        (frameEvents pre ++ Selected.packet A.1 A.2 ::
          (frameEvents mid ++ Selected.packet B.1 B.2 :: post))) =
      store ++ (captureDHCPPackets (frameEvents pre) ++ rA ::
        (captureDHCPPackets (frameEvents mid) ++ rB :: captureDHCPPackets post)) := by
  refine ⟨ingestionLoop_eq_append, ?_⟩
  rw [ingestionLoop_eq_append, captureDHCPPackets_frames_append]
  simp only [captureDHCPPackets, hA]
  rw [captureDHCPPackets_frames_append]
  simp only [captureDHCPPackets, hB]

/-- Witness of C3: two DHCP requests around a dropped reply frame. -/
theorem record_order_is_capture_order_witness :
    ingestionLoop [] (captureDHCPPackets
        (frameEvents [] ++ Selected.packet
            ⟨some ⟨[0xaa, 0xbb, 0xcc, 0xdd, 0xee, 0xff]⟩, some ⟨DHCPOpRequest, []⟩⟩ 5 ::
          (frameEvents [(⟨some ⟨[1, 2, 3, 4, 5, 6]⟩, some ⟨DHCPOpReply, []⟩⟩, 6)] ++
            Selected.packet ⟨some ⟨[1, 2, 3, 4, 5, 6]⟩, some ⟨DHCPOpRequest, []⟩⟩ 7 :: []))) =
      [] ++ (captureDHCPPackets (frameEvents []) ++ ⟨"5", "", "aa:bb:cc:dd:ee:ff", ""⟩ ::
        (captureDHCPPackets
            (frameEvents [(⟨some ⟨[1, 2, 3, 4, 5, 6]⟩, some ⟨DHCPOpReply, []⟩⟩, 6)]) ++
          ⟨"7", "", "01:02:03:04:05:06", ""⟩ :: captureDHCPPackets [])) :=
  (record_order_is_capture_order [] []
    [(⟨some ⟨[1, 2, 3, 4, 5, 6]⟩, some ⟨DHCPOpReply, []⟩⟩, 6)] []
    (⟨some ⟨[0xaa, 0xbb, 0xcc, 0xdd, 0xee, 0xff]⟩, some ⟨DHCPOpRequest, []⟩⟩, 5)
    (⟨some ⟨[1, 2, 3, 4, 5, 6]⟩, some ⟨DHCPOpRequest, []⟩⟩, 7)
    ⟨"5", "", "aa:bb:cc:dd:ee:ff", ""⟩ ⟨"7", "", "01:02:03:04:05:06", ""⟩
    (by decide) (by decide)).2

/-! ## C4: the store is append-only -/

/-- C4: for every store and every operation of the program on it (an
ingestion step or an access-records query), and for every sequence of such
operations, the store before is a prefix of the store after: its length does
not decrease and every record keeps its position and value.  The same holds
for every step of every goroutine in the transition system of the program. -/
theorem store_append_only (store : List DHCPRecord) (op : StoreOp) (ops : List StoreOp) :
    store <+: applyOp store op ∧
    store.length ≤ (applyOp store op).length ∧
    (∀ (i : Nat) (r : DHCPRecord), store[i]? = some r → (applyOp store op)[i]? = some r) ∧
    store <+: applyOps store ops ∧
    store.length ≤ (applyOps store ops).length ∧
    (∀ (s t : State) (a : Action), step s a = some t → s.dhcpRecord <+: t.dhcpRecord) := by
  have hstep : ∀ (s : List DHCPRecord) (o : StoreOp), s <+: applyOp s o := by
    intro s o
    cases o with
    | ingest r => simp [applyOp, ingestionLoop_eq_append]
    | query => simp [applyOp, accessRecords]
  have hsteps : ∀ (os : List StoreOp) (s : List DHCPRecord), s <+: applyOps s os := by
    intro os
    induction os with
    | nil => intro s; simp [applyOps]
    | cons o os ih => intro s; exact (hstep s o).trans (ih _)
  refine ⟨hstep store op, (hstep store op).length_le, ?_, hsteps ops store,
    (hsteps ops store).length_le, step_store_prefix⟩
  intro i r hi
  obtain ⟨t, ht⟩ := hstep store op
  rw [← ht, List.getElem?_append_left (List.getElem?_eq_some_iff.mp hi).1]
  exact hi

/-! ## C5: the query handler -/

/-- C5: on every store the access-records query answers status 200 with the
whole record list in store order and leaves the store as it was, so a second
query right after the first returns the same response. -/
theorem access_records_snapshot_idempotent (store : List DHCPRecord) :
    (accessRecords store).1 = { status := 200, body := store } ∧
    (accessRecords store).2 = store ∧
    (accessRecords (accessRecords store).2).1 = (accessRecords store).1 ∧
    applyOp store StoreOp.query = store := by
  simp [accessRecords, StatusOK, applyOp]

/-! ## C7: the rendering of the requested IP -/

/-- C7, counterexample: a frame may carry a requested-IP option of length 0
(type 50, length 0, no data); `net.IP.String` renders it as `"<nil>"`, which
is neither empty nor of the form `a.b.c.d`. -/
theorem requested_ip_without_data_is_nil_text :
    captureDHCPPackets [Selected.packet ⟨some ⟨[0xaa, 0xbb, 0xcc, 0xdd, 0xee, 0xff]⟩,
        some ⟨DHCPOpRequest, [⟨DHCPOptRequestIP, 0, []⟩]⟩⟩ 1700000000000000000] =
      [⟨"1700000000000000000", "<nil>", "aa:bb:cc:dd:ee:ff", ""⟩] ∧
    (parseDHCPOptions [⟨DHCPOptRequestIP, 0, []⟩]).1 = "<nil>" ∧
    (parseDHCPOptions [⟨DHCPOptRequestIP, 0, []⟩]).1 ≠ "" ∧
    ¬ ∃ a b c d : Nat,
      (parseDHCPOptions [⟨DHCPOptRequestIP, 0, []⟩]).1 = dottedDecimal a b c d := by
  refine ⟨by decide, by decide, by decide, ?_⟩
  rintro ⟨a, b, c, d, h⟩
  have h1 : (parseDHCPOptions [⟨DHCPOptRequestIP, 0, []⟩]).1 = "<nil>" := by decide
  rw [h1] at h
  have h2 : '.' ∈ (dottedDecimal a b c d).data := by
    simp [dottedDecimal, String.data_append]
  rw [← h] at h2
  revert h2
  decide

/-- Further renderings of requested-IP data that is not four bytes long:
three bytes, six bytes, and a 16-byte IPv6 address. -/
theorem requested_ip_other_lengths :
    (parseDHCPOptions [⟨DHCPOptRequestIP, 3, [192, 168, 1]⟩]).1 = "?c0a801" ∧
    (parseDHCPOptions [⟨DHCPOptRequestIP, 6, [1, 2, 3, 4, 5, 6]⟩]).1 = "?010203040506" ∧
    (parseDHCPOptions [⟨DHCPOptRequestIP, 16,
      [0x20, 0x01, 0x0d, 0xb8, 0, 0, 0, 0, 0, 0, 0, 0, 0, 0, 0, 1]⟩]).1 = "2001:db8::1" := by
  decide

/-- C7, amended: when the requested-IP option that is used (the last one in
the list) has exactly four data bytes, the IP returned by `parseDHCPOptions`
is empty, for a list without requested-IP option, or the dotted-decimal text
`a.b.c.d` of these four bytes. -/
theorem requested_ip_empty_or_dotted (options : List DHCPOption)
    (h4 : ∀ data, lastOptionData DHCPOptRequestIP options = some data →
      data.length = 4 ∧ ∀ x ∈ data, x < 256) :
    ((∀ o ∈ options, o.OptType ≠ DHCPOptRequestIP) ∧ (parseDHCPOptions options).1 = "") ∨
    ∃ a b c d : Nat, a < 256 ∧ b < 256 ∧ c < 256 ∧ d < 256 ∧
      lastOptionData DHCPOptRequestIP options = some [a, b, c, d] ∧
      (parseDHCPOptions options).1 = dottedDecimal a b c d := by
  cases hl : lastOptionData DHCPOptRequestIP options with
  | none =>
    left
    refine ⟨(lastOptionData_eq_none_iff _ _).mp hl, ?_⟩
    rw [parseDHCPOptions_eq, hl]; rfl
  | some data =>
    right
    obtain ⟨hlen, hlt⟩ := h4 data hl
    match data, hlen, hlt with
    | [a, b, c, d], _, hlt =>
      have ha : a < 256 := hlt a (by simp)
      have hb : b < 256 := hlt b (by simp)
      have hc : c < 256 := hlt c (by simp)
      have hd : d < 256 := hlt d (by simp)
      refine ⟨a, b, c, d, ha, hb, hc, hd, rfl, ?_⟩
      rw [parseDHCPOptions_eq, hl]
      exact ipString_four_bytes a b c d ha hb hc hd

/-- Witness of C7 amended: a request whose requested-IP option holds
192.168.1.50. -/
theorem requested_ip_empty_or_dotted_witness :
    ((∀ o ∈ [(⟨53, 1, [3]⟩ : DHCPOption), ⟨DHCPOptRequestIP, 4, [192, 168, 1, 50]⟩],
        o.OptType ≠ DHCPOptRequestIP) ∧
      (parseDHCPOptions [⟨53, 1, [3]⟩, ⟨DHCPOptRequestIP, 4, [192, 168, 1, 50]⟩]).1 = "") ∨
    ∃ a b c d : Nat, a < 256 ∧ b < 256 ∧ c < 256 ∧ d < 256 ∧
      lastOptionData DHCPOptRequestIP
        [⟨53, 1, [3]⟩, ⟨DHCPOptRequestIP, 4, [192, 168, 1, 50]⟩] = some [a, b, c, d] ∧
      (parseDHCPOptions [⟨53, 1, [3]⟩, ⟨DHCPOptRequestIP, 4, [192, 168, 1, 50]⟩]).1 =
        dottedDecimal a b c d :=
  requested_ip_empty_or_dotted [⟨53, 1, [3]⟩, ⟨DHCPOptRequestIP, 4, [192, 168, 1, 50]⟩]
    (by
      intro data h
      have e : lastOptionData DHCPOptRequestIP
          [⟨53, 1, [3]⟩, ⟨DHCPOptRequestIP, 4, [192, 168, 1, 50]⟩] =
          some [192, 168, 1, 50] := by decide
      rw [e] at h
      cases h
      decide)

/-! ## C8: record ids -/

/-- C8, counterexample: two accepted frames from different clients whose
records are built at the same clock reading give two different records with
the same id. -/
theorem same_clock_reading_same_id :
    ingestionLoop [] (captureDHCPPackets (frameEvents
      [(⟨some ⟨[0xaa, 0xbb, 0xcc, 0xdd, 0xee, 0xff]⟩, some ⟨DHCPOpRequest, []⟩⟩,
          1700000000000000000),
        (⟨some ⟨[1, 2, 3, 4, 5, 6]⟩, some ⟨DHCPOpRequest, []⟩⟩, 1700000000000000000)])) =
      [⟨"1700000000000000000", "", "aa:bb:cc:dd:ee:ff", ""⟩,
        ⟨"1700000000000000000", "", "01:02:03:04:05:06", ""⟩] ∧
    (⟨"1700000000000000000", "", "aa:bb:cc:dd:ee:ff", ""⟩ : DHCPRecord) ≠
      ⟨"1700000000000000000", "", "01:02:03:04:05:06", ""⟩ ∧
    (⟨"1700000000000000000", "", "aa:bb:cc:dd:ee:ff", ""⟩ : DHCPRecord).ID =
      (⟨"1700000000000000000", "", "01:02:03:04:05:06", ""⟩ : DHCPRecord).ID := by
  decide

/-- C8, amended: for every sequence of accepted frames whose clock readings
are pairwise distinct, the ids in the store are the decimal formattings of
the readings, in order, and records at two different positions of the store
have different ids. -/
theorem record_ids_unique_of_distinct_readings (frames : List (Packet × Int))
    (hacc : ∀ f ∈ frames, Accepted f.1) (hclock : (frames.map Prod.snd).Nodup) :
    (ingestionLoop [] (captureDHCPPackets (frameEvents frames))).map (fun r => r.ID) =
      frames.map (fun f => formatInt f.2) ∧
    ((ingestionLoop [] (captureDHCPPackets (frameEvents frames))).map (fun r => r.ID)).Nodup ∧
    ∀ (i j : Nat) (ri rj : DHCPRecord), i ≠ j →
      (ingestionLoop [] (captureDHCPPackets (frameEvents frames)))[i]? = some ri →
      (ingestionLoop [] (captureDHCPPackets (frameEvents frames)))[j]? = some rj →
      ri.ID ≠ rj.ID := by
  have hids : (ingestionLoop [] (captureDHCPPackets (frameEvents frames))).map (fun r => r.ID) =
      frames.map (fun f => formatInt f.2) := by
    rw [ingestionLoop_eq_append, List.nil_append]
    exact capture_accepted_frames_ids frames hacc
  have hnodup : ((ingestionLoop [] (captureDHCPPackets (frameEvents frames))).map
      (fun r => r.ID)).Nodup := by
    rw [hids]
    have e : frames.map (fun f => formatInt f.2) = (frames.map Prod.snd).map formatInt := by
      simp
    rw [e]
    exact hclock.map (fun a b hab => formatInt_injective a b hab)
  refine ⟨hids, hnodup, ?_⟩
  intro i j ri rj hij hi hj heq
  have hi2 : ((ingestionLoop [] (captureDHCPPackets (frameEvents frames))).map
      (fun r => r.ID))[i]? = some ri.ID := by
    rw [List.getElem?_map, hi]; rfl
  have hj2 : ((ingestionLoop [] (captureDHCPPackets (frameEvents frames))).map
      (fun r => r.ID))[j]? = some rj.ID := by
    rw [List.getElem?_map, hj]; rfl
  rw [← heq] at hj2
  obtain ⟨hil, hie⟩ := List.getElem?_eq_some_iff.mp hi2
  obtain ⟨hjl, hje⟩ := List.getElem?_eq_some_iff.mp hj2
  exact hij ((List.Nodup.getElem_inj_iff hnodup).mp (hie.trans hje.symm))

/-- Witness of C8 amended: the two clients of the counterexample, seen one
nanosecond apart. -/
theorem record_ids_unique_of_distinct_readings_witness :
    ((ingestionLoop [] (captureDHCPPackets (frameEvents
      [(⟨some ⟨[0xaa, 0xbb, 0xcc, 0xdd, 0xee, 0xff]⟩, some ⟨DHCPOpRequest, []⟩⟩,
          1700000000000000000),
        (⟨some ⟨[1, 2, 3, 4, 5, 6]⟩, some ⟨DHCPOpRequest, []⟩⟩,
          1700000000000000001)]))).map (fun r => r.ID)).Nodup :=
  (record_ids_unique_of_distinct_readings
    [(⟨some ⟨[0xaa, 0xbb, 0xcc, 0xdd, 0xee, 0xff]⟩, some ⟨DHCPOpRequest, []⟩⟩,
        1700000000000000000),
      (⟨some ⟨[1, 2, 3, 4, 5, 6]⟩, some ⟨DHCPOpRequest, []⟩⟩, 1700000000000000001)]
    (by
      intro f hf
      simp only [List.mem_cons, List.mem_singleton, List.not_mem_nil, or_false] at hf
      rcases hf with rfl | rfl <;> exact ⟨⟨_, rfl⟩, _, rfl, rfl⟩)
    (by decide)).2.1

/-! ## C9: shutdown sequencing -/

/-- C9: the state in which the capture goroutine sends on the closed handoff
channel is reachable from the initial state.  First schedule: a request frame
is taken by the `select` and processed up to the send, then the signal
arrives and the shutdown goroutine runs `close(done)` and `close(dhcpChan)`
back to back.  Second schedule: `done` is already closed when the `select`
takes the frame that arrived with the signal. -/
theorem send_on_closed_channel_reachable :
    (∃ s, run initState
        [Action.frame ⟨some ⟨[0xaa, 0xbb, 0xcc, 0xdd, 0xee, 0xff]⟩,
            some ⟨DHCPOpRequest, []⟩⟩ 1700000000000000000,
          Action.process, Action.signal, Action.closeChan] = some s ∧
      sendOnClosed s = true) ∧
    (∃ s, run initState
        [Action.signal,
          Action.frame ⟨some ⟨[0xaa, 0xbb, 0xcc, 0xdd, 0xee, 0xff]⟩,
            some ⟨DHCPOpRequest, []⟩⟩ 1700000000000000000,
          Action.process, Action.closeChan] = some s ∧
      sendOnClosed s = true) := by
  constructor
  · exact ⟨_, rfl, rfl⟩
  · exact ⟨_, rfl, rfl⟩

/-! ## C6 and C10: the option scanner -/

/-- C6: `parseDHCPOptions` returns the empty string for the IP when the list
has no requested-IP option and the empty string for the hostname when it has
no hostname option; both are empty for the empty list and for a list made of
other option types only. -/
theorem parse_missing_options_empty (options : List DHCPOption) :
    ((∀ o ∈ options, o.OptType ≠ DHCPOptRequestIP) → (parseDHCPOptions options).1 = "") ∧
    ((∀ o ∈ options, o.OptType ≠ DHCPOptHostname) → (parseDHCPOptions options).2.2 = "") ∧
    (parseDHCPOptions []).1 = "" ∧ (parseDHCPOptions []).2.2 = "" ∧
    ((∀ o ∈ options, o.OptType ≠ DHCPOptRequestIP ∧ o.OptType ≠ DHCPOptHostname) →
      (parseDHCPOptions options).1 = "" ∧ (parseDHCPOptions options).2.2 = "") := by
  refine ⟨fun h => ?_, fun h => ?_, rfl, rfl, fun h => ⟨?_, ?_⟩⟩
  · rw [parseDHCPOptions_eq, (lastOptionData_eq_none_iff _ _).mpr h]; rfl
  · rw [parseDHCPOptions_eq, (lastOptionData_eq_none_iff _ _).mpr h]; rfl
  · rw [parseDHCPOptions_eq, (lastOptionData_eq_none_iff _ _).mpr (fun o ho => (h o ho).1)]; rfl
  · rw [parseDHCPOptions_eq, (lastOptionData_eq_none_iff _ _).mpr (fun o ho => (h o ho).2)]; rfl

/-- Witness of C6: a list holding only a message-type option (53) and a
parameter-request list (55). -/
theorem parse_missing_options_empty_witness :
    (parseDHCPOptions [⟨53, 1, [3]⟩, ⟨55, 2, [1, 3]⟩]).1 = "" ∧
    (parseDHCPOptions [⟨53, 1, [3]⟩, ⟨55, 2, [1, 3]⟩]).2.2 = "" :=
  (parse_missing_options_empty [⟨53, 1, [3]⟩, ⟨55, 2, [1, 3]⟩]).2.2.2.2 (by decide)

/-- C10: `parseDHCPOptions` takes each field from the last matching option:
with a requested-IP option `o` after which no requested-IP option follows,
the IP is the rendering of `o.Data`, whatever precedes `o` and whatever other
options are interleaved; likewise the hostname is the data of the last
hostname option; and the second result (the MAC) is always empty. -/
theorem parse_takes_last_matching_option (pre post : List DHCPOption) (o : DHCPOption) :
    (o.OptType = DHCPOptRequestIP → (∀ x ∈ post, x.OptType ≠ DHCPOptRequestIP) →
      (parseDHCPOptions (pre ++ o :: post)).1 = ipString o.Data) ∧
    (o.OptType = DHCPOptHostname → (∀ x ∈ post, x.OptType ≠ DHCPOptHostname) →
      (parseDHCPOptions (pre ++ o :: post)).2.2 = bytesToString o.Data) ∧
    (parseDHCPOptions (pre ++ o :: post)).2.1 = "" ∧
    (∀ options : List DHCPOption, (parseDHCPOptions options).2.1 = "") := by
  refine ⟨fun ho hp => ?_, fun ho hp => ?_, rfl, fun _ => rfl⟩
  · rw [parseDHCPOptions_eq, lastOptionData_append_cons _ _ _ _ ho hp]; rfl
  · rw [parseDHCPOptions_eq, lastOptionData_append_cons _ _ _ _ ho hp]; rfl

/-- Witness of C10: two requested-IP options and two hostname options,
interleaved with a message-type option; the later ones win. -/
theorem parse_takes_last_matching_option_witness :
    (parseDHCPOptions ([⟨DHCPOptRequestIP, 4, [10, 0, 0, 1]⟩, ⟨DHCPOptHostname, 3, [111, 108, 100]⟩,
        ⟨DHCPOptHostname, 3, [110, 101, 119]⟩] ++
      ⟨DHCPOptRequestIP, 4, [192, 168, 1, 50]⟩ :: [⟨53, 1, [3]⟩])).1 =
      ipString [192, 168, 1, 50] :=
  (parse_takes_last_matching_option
    [⟨DHCPOptRequestIP, 4, [10, 0, 0, 1]⟩, ⟨DHCPOptHostname, 3, [111, 108, 100]⟩,
      ⟨DHCPOptHostname, 3, [110, 101, 119]⟩]
    [⟨53, 1, [3]⟩] ⟨DHCPOptRequestIP, 4, [192, 168, 1, 50]⟩).1 (by decide) (by decide)

end Wifiplus
